import Mathlib

/-!
Verification of the `proton::connection_engine` specification.

The repository ships only the declaration surface
(`src/proton-c/bindings/cpp/include/proton/connection_engine.hpp`); the
runtime behaviour of `process`, `dispatch`, `try_read`, `try_write` and the
container is described by the natural-language specification (spec.md §3-§7).
The definitions below are therefore a shallow embedding modelled from the
spec: the engine state, the scripted I/O adapter, the staged dispatch loop of
§4.3 and the container of §4.5.  The protocol core of §4.2 is kept abstract
as a pair of stream functions `decode` and `encode` from the committed
inbound byte stream to the generated event sequence and to the encoded
outbound byte stream.
-/

/-- Bytes crossing the engine boundary, modelled as natural numbers. -/
abbrev Byte := Nat

/-- Protocol events generated by the protocol core, modelled abstractly. -/
abbrev Event := Nat

/-- Modelled from the spec: the three I/O adapter operations of §4.1 that the
engine may invoke (`io_read`, `io_write`, `io_close`); the engine
implementation that performs these calls is not under `src/`. -/
inductive IOCall where
  | readC
  | writeC
  | closeC
deriving DecidableEq

/-- Modelled from the spec: one result of the adapter operation
`read(buffer, max) -> (bytesRead, stillOpen)` of §4.1.  `data bs` is
`(|bs|, true)` with `bs` nonempty in intent, `wouldBlock` is `(0, true)`,
`eos` is `(0, false)`, and `rerr` is the I/O-error condition carrying a
human-readable description. -/
inductive ReadRes where
  | data (bs : List Byte)
  | wouldBlock
  | eos
  | rerr (msg : String)
deriving DecidableEq

/-- Modelled from the spec: one result of the adapter operation
`write(buffer, length) -> bytesWritten` of §4.1.  `accept k` means the
adapter accepts up to `k` of the offered bytes (`0` = cannot write right
now); `werr` is the I/O-error condition. -/
inductive WriteRes where
  | accept (k : Nat)
  | werr (msg : String)
deriving DecidableEq

/-- Modelled from the spec: a host I/O adapter, represented as the script of
results its `read` and `write` operations will return, consumed in call
order.  The adapter implementation is host-supplied and not under `src/`. -/
structure Adapter where
  reads : List ReadRes
  writes : List WriteRes
deriving DecidableEq

/-- True when the adapter script contains no I/O-error result. -/
def ReadRes.isErr : ReadRes → Bool
  | .rerr _ => true
  | _ => false

/-- True when the write result is an I/O-error result. -/
def WriteRes.isErr : WriteRes → Bool
  | .werr _ => true
  | _ => false

/-- An adapter script that never raises an I/O error. -/
def Adapter.errFree (a : Adapter) : Bool :=
  a.reads.all (fun r => ! r.isErr) && a.writes.all (fun w => ! w.isErr)

/-- Modelled from the spec: the error channel of `process()`.  `ioErr`
carries the description of an adapter I/O failure (§4.1, §7); `handlerErr`
is an exception escaping the application handler during dispatch (header
doc: "throw exceptions thrown by the engines handler or the IO adapter"). -/
inductive EngErr where
  | ioErr (msg : String)
  | handlerErr (msg : String)
deriving DecidableEq

/-- Modelled from the spec: the engine state of §3.  `committed` is the full
inbound byte stream committed to the protocol core in order; `dispatched`
counts core-generated events already dispatched (removed from the queue);
`outQueue` holds encoded outbound bytes the adapter has not yet accepted;
`encodedTotal` and `writtenTotal` count all bytes the core has encoded and
all bytes the adapter has reported written; `eosSeen` records end-of-stream;
`closed` is the terminal flag behind `closed()`; `errorStr` is the recorded
error description.  The engine implementation is not under `src/`. -/
structure Engine where
  committed : List Byte
  dispatched : Nat
  outQueue : List Byte
  encodedTotal : Nat
  writtenTotal : Nat
  eosSeen : Bool
  closed : Bool
  errorStr : Option String
deriving DecidableEq

/-- A freshly constructed engine: nothing committed, dispatched, queued or
written; stream open; not closed; no error recorded. -/
def mkEngine : Engine :=
  { committed := [], dispatched := 0, outQueue := [], encodedTotal := 0,
    writtenTotal := 0, eosSeen := false, closed := false, errorStr := none }

/-- Source `connection_engine::can_write`: number of outbound bytes ready
for the adapter (the pending outbound buffer size); a pure projection of the
state, performing no I/O and no dispatch. -/
def canWrite (e : Engine) : Nat := e.outQueue.length

/-- Source `connection_engine::can_read`: how many bytes the engine is ready
to accept from the adapter.  Inbound buffering is unbounded in the spec
model, so this is left abstract as a projection; it performs no I/O. -/
def canRead (e : Engine) : Nat := if e.eosSeen || e.closed then 0 else 1

/-- Modelled from the spec: the closed condition of §3 — end-of-stream seen,
all pending outbound bytes flushed, and no further events pending. -/
def quiescent (decode : List Byte → List Event) (e : Engine) : Bool :=
  e.eosSeen && e.outQueue.isEmpty && (e.dispatched == (decode e.committed).length)

/-- The state threaded through one `process()` invocation: engine, adapter
script, the I/O calls made so far, the events dispatched so far, and the
pending error, if any. -/
structure St where
  eng : Engine
  adp : Adapter
  trace : List IOCall
  events : List Event
  err : Option EngErr
deriving DecidableEq

/-- Deliver a list of pending events to the handler in order; returns how
many events were delivered (the event the handler throws on counts as
delivered) and the first handler exception, if any. -/
def runHandler (handler : Event → Option String) : List Event → Nat × Option String
  | [] => (0, none)
  | ev :: rest =>
    match handler ev with
    | some m => (1, some m)
    | none =>
      let r := runHandler handler rest
      (r.1 + 1, r.2)

/-- Modelled from the spec: step 2 of the dispatch loop (§4.3) and source
`connection_engine::try_read`.  If reading was requested and the stream is
still open, perform one adapter read: commit received bytes to the protocol
core, absorb a would-block silently, record end-of-stream, or, on an I/O
error, mark the engine closed, record the description, invoke `io_close`
and set the error channel (§4.1 failure signaling, §7). -/
def readStage (flags : Nat) (s : St) : St :=
  if s.err.isSome then s else
  if ! flags.testBit 0 then s else
  if s.eng.eosSeen then s else
  match s.adp.reads with
  | [] => { s with trace := s.trace ++ [IOCall.readC] }
  | r :: rest =>
    let s1 : St := { s with
      adp := { s.adp with reads := rest },
      trace := s.trace ++ [IOCall.readC] }
    match r with
    | .data bs => { s1 with eng := { s1.eng with committed := s1.eng.committed ++ bs } }
    | .wouldBlock => s1
    | .eos => { s1 with eng := { s1.eng with eosSeen := true } }
    | .rerr m =>
      { s1 with
        eng := { s1.eng with closed := true, errorStr := some m },
        trace := s1.trace ++ [IOCall.closeC],
        err := some (EngErr.ioErr m) }

/-- Modelled from the spec: step 3 of the dispatch loop (§4.3) and source
`connection_engine::dispatch`.  Drain the pending events — the
core-generated events not yet dispatched — to the handler strictly in
order; an event is removed from the queue once dispatched and never
redelivered (§4.2).  A handler exception aborts the drain and is set on the
error channel. -/
def dispatchStage (decode : List Byte → List Event)
    (handler : Event → Option String) (s : St) : St :=
  if s.err.isSome then s else
  let pending := (decode s.eng.committed).drop s.eng.dispatched
  let r := runHandler handler pending
  { s with
    eng := { s.eng with dispatched := s.eng.dispatched + r.1 },
    events := s.events ++ pending.take r.1,
    err := r.2.map EngErr.handlerErr }

/-- Modelled from the spec: the outbound side of the protocol core adapter
(§4.2 `outboundReady`/`outboundBytes`).  Bytes the core has newly encoded
for the current committed stream are appended to the pending outbound
queue. -/
def encodeStage (encode : List Byte → List Byte) (s : St) : St :=
  if s.err.isSome then s else
  let newBytes := (encode s.eng.committed).drop s.eng.encodedTotal
  { s with
    eng := { s.eng with
      outQueue := s.eng.outQueue ++ newBytes,
      encodedTotal := s.eng.encodedTotal + newBytes.length } }

/-- Modelled from the spec: step 4 of the dispatch loop (§4.3) and source
`connection_engine::try_write`.  If writing was requested and outbound bytes
are pending, offer the whole pending queue to one adapter write and advance
the send cursor by exactly the number of bytes the adapter accepted; on an
I/O error, mark the engine closed, record the description, invoke
`io_close` and set the error channel. -/
def writeStage (flags : Nat) (s : St) : St :=
  if s.err.isSome then s else
  if ! flags.testBit 1 then s else
  if s.eng.outQueue.isEmpty then s else
  match s.adp.writes with
  | [] => { s with trace := s.trace ++ [IOCall.writeC] }
  | w :: rest =>
    let s1 : St := { s with
      adp := { s.adp with writes := rest },
      trace := s.trace ++ [IOCall.writeC] }
    match w with
    | .accept k =>
      let n := min k s1.eng.outQueue.length
      { s1 with
        eng := { s1.eng with
          outQueue := s1.eng.outQueue.drop n,
          writtenTotal := s1.eng.writtenTotal + n } }
    | .werr m =>
      { s1 with
        eng := { s1.eng with closed := true, errorStr := some m },
        trace := s1.trace ++ [IOCall.closeC],
        err := some (EngErr.ioErr m) }

/-- Modelled from the spec: step 5 of the dispatch loop (§4.3).  Re-evaluate
the closed condition of §3; on the transition to closed, invoke the
adapter `io_close` exactly once. -/
def closeStage (decode : List Byte → List Event) (s : St) : St :=
  if s.err.isSome then s else
  if s.eng.closed then s else
  if quiescent decode s.eng then
    { s with
      eng := { s.eng with closed := true },
      trace := s.trace ++ [IOCall.closeC] }
  else s

/-- Modelled from the spec: source `connection_engine::process` (§4.3).  If
the engine is closed, return immediately as a no-op; otherwise run the
read, dispatch, encode, write and closed-re-evaluation steps in order.
`flags` carries the `READ = 1` / `WRITE = 2` bits of the source enum. -/
def process (decode : List Byte → List Event) (encode : List Byte → List Byte)
    (handler : Event → Option String) (flags : Nat) (e : Engine) (a : Adapter) : St :=
  if e.closed then ⟨e, a, [], [], none⟩ else
  closeStage decode
    (writeStage flags
      (encodeStage encode
        (dispatchStage decode handler
          (readStage flags ⟨e, a, [], [], none⟩))))

/-- A run of the engine: a sequence of `process()` calls, each with its own
flags and adapter script; returns the final engine, the concatenated I/O
call trace, and the concatenated sequence of dispatched events. -/
def runEngine (decode : List Byte → List Event) (encode : List Byte → List Byte)
    (handler : Event → Option String) :
    List (Nat × Adapter) → Engine → Engine × List IOCall × List Event
  | [], e => (e, [], [])
  | c :: rest, e =>
    let s := process decode encode handler c.1 e c.2
    let r := runEngine decode encode handler rest s.eng
    (r.1, s.trace ++ r.2.1, s.events ++ r.2.2)

/-- A streaming protocol core: the events decoded from a stream stay, as a
prefix, in front of the events decoded from any extension of the stream. -/
def Mono (decode : List Byte → List Event) : Prop :=
  ∀ s t : List Byte, ∃ u, decode s ++ u = decode (s ++ t)

/-- True when `IOCall.closeC` occurs only as the very last call of a trace:
no `io_read` or `io_write` follows an `io_close`, and `io_close` happens at
most once. -/
def closeIsLast : List IOCall → Bool
  | [] => true
  | IOCall.closeC :: rest => rest.isEmpty
  | _ :: rest => closeIsLast rest

/-- Modelled from the spec: a generated link-name prefix (§4.5) — the
container id together with the value of the per-container counter at
generation time.  The container implementation is not under `src/`. -/
structure LinkName where
  base : String
  serial : Nat
deriving DecidableEq

/-- Modelled from the spec: the configuration bundle produced by
`container::make_options` — stamped with the container id and a generated
link-name prefix (§4.5). -/
structure ConnOptions where
  containerId : String
  linkName : LinkName
deriving DecidableEq

/-- Modelled from the spec: the container of §3/§4.5 — a container
identifier fixed at construction and a link-name counter mutated by every
`make_options` call.  The container implementation is not under `src/`. -/
structure Container where
  id : String
  counter : Nat
deriving DecidableEq

/-- Modelled from the spec: source `connection_engine::container::make_options`
(§4.5) — returns a fresh configuration bundle stamped with the container id
and a newly incremented unique link-name prefix, together with the mutated
container. -/
def Container.makeOptions (c : Container) : ConnOptions × Container :=
  (⟨c.id, ⟨c.id, c.counter⟩⟩, { c with counter := c.counter + 1 })

/-! ### Basic lemmas about the stages -/

/-- A handler that never throws delivers every pending event. -/
theorem runHandler_total (handler : Event → Option String)
    (hT : ∀ ev, handler ev = none) :
    ∀ l : List Event, runHandler handler l = (l.length, none) := by
  intro l
  induction l with
  | nil => rfl
  | cons ev rest ih =>
    simp [runHandler, hT ev, ih, Nat.add_comm]

/-- With the error channel set, the read stage is skipped. -/
theorem readStage_skip (flags : Nat) (s : St) (h : s.err.isSome = true) :
    readStage flags s = s := by
  simp [readStage, h]

/-- With the error channel set, the dispatch stage is skipped. -/
theorem dispatchStage_skip (decode : List Byte → List Event)
    (handler : Event → Option String) (s : St) (h : s.err.isSome = true) :
    dispatchStage decode handler s = s := by
  simp [dispatchStage, h]

/-- With the error channel set, the encode stage is skipped. -/
theorem encodeStage_skip (encode : List Byte → List Byte) (s : St)
    (h : s.err.isSome = true) : encodeStage encode s = s := by
  simp [encodeStage, h]

/-- With the error channel set, the write stage is skipped. -/
theorem writeStage_skip (flags : Nat) (s : St) (h : s.err.isSome = true) :
    writeStage flags s = s := by
  simp [writeStage, h]

/-- With the error channel set, the closed re-evaluation is skipped. -/
theorem closeStage_skip (decode : List Byte → List Event) (s : St)
    (h : s.err.isSome = true) : closeStage decode s = s := by
  simp [closeStage, h]

/-- The read stage does not touch the outbound side, the dispatch counter or
the dispatched events; it extends the committed stream, keeps the write
script, and leaves the closed flag alone unless an I/O error occurred. -/
theorem readStage_frame (flags : Nat) (s : St) :
    ∃ bs : List Byte,
      (readStage flags s).eng.committed = s.eng.committed ++ bs ∧
      (readStage flags s).eng.dispatched = s.eng.dispatched ∧
      (readStage flags s).eng.outQueue = s.eng.outQueue ∧
      (readStage flags s).eng.encodedTotal = s.eng.encodedTotal ∧
      (readStage flags s).eng.writtenTotal = s.eng.writtenTotal ∧
      (readStage flags s).events = s.events ∧
      (readStage flags s).adp.writes = s.adp.writes := by
  unfold readStage
  split
  · exact ⟨[], by simp⟩
  split
  · exact ⟨[], by simp⟩
  split
  · exact ⟨[], by simp⟩
  split
  · exact ⟨[], by simp⟩
  split
  · rename_i bs heq
    exact ⟨bs, by simp⟩
  · exact ⟨[], by simp⟩
  · exact ⟨[], by simp⟩
  · exact ⟨[], by simp⟩

/-- The dispatch stage written out on a state with a clear error channel. -/
theorem dispatchStage_eq (decode : List Byte → List Event)
    (handler : Event → Option String) (s : St) (h : s.err = none) :
    dispatchStage decode handler s =
      { s with
        eng := { s.eng with
          dispatched := s.eng.dispatched +
            (runHandler handler ((decode s.eng.committed).drop s.eng.dispatched)).1 },
        events := s.events ++
          ((decode s.eng.committed).drop s.eng.dispatched).take
            (runHandler handler ((decode s.eng.committed).drop s.eng.dispatched)).1,
        err := (runHandler handler
          ((decode s.eng.committed).drop s.eng.dispatched)).2.map EngErr.handlerErr } := by
  simp [dispatchStage, h]

/-- The encode stage written out on a state with a clear error channel. -/
theorem encodeStage_eq (encode : List Byte → List Byte) (s : St) (h : s.err = none) :
    encodeStage encode s =
      { s with
        eng := { s.eng with
          outQueue := s.eng.outQueue ++ (encode s.eng.committed).drop s.eng.encodedTotal,
          encodedTotal := s.eng.encodedTotal +
            ((encode s.eng.committed).drop s.eng.encodedTotal).length } } := by
  simp [encodeStage, h]

/-- The dispatch stage only touches the dispatch counter, the dispatched
events and the error channel. -/
theorem dispatchStage_frame (decode : List Byte → List Event)
    (handler : Event → Option String) (s : St) :
    (dispatchStage decode handler s).eng.committed = s.eng.committed ∧
    (dispatchStage decode handler s).eng.outQueue = s.eng.outQueue ∧
    (dispatchStage decode handler s).eng.encodedTotal = s.eng.encodedTotal ∧
    (dispatchStage decode handler s).eng.writtenTotal = s.eng.writtenTotal ∧
    (dispatchStage decode handler s).eng.eosSeen = s.eng.eosSeen ∧
    (dispatchStage decode handler s).eng.closed = s.eng.closed ∧
    (dispatchStage decode handler s).eng.errorStr = s.eng.errorStr ∧
    (dispatchStage decode handler s).adp = s.adp ∧
    (dispatchStage decode handler s).trace = s.trace := by
  unfold dispatchStage
  split <;> simp

/-- The encode stage only touches the outbound queue and the encoded-bytes
counter. -/
theorem encodeStage_frame (encode : List Byte → List Byte) (s : St) :
    (encodeStage encode s).eng.committed = s.eng.committed ∧
    (encodeStage encode s).eng.dispatched = s.eng.dispatched ∧
    (encodeStage encode s).eng.writtenTotal = s.eng.writtenTotal ∧
    (encodeStage encode s).eng.eosSeen = s.eng.eosSeen ∧
    (encodeStage encode s).eng.closed = s.eng.closed ∧
    (encodeStage encode s).eng.errorStr = s.eng.errorStr ∧
    (encodeStage encode s).events = s.events ∧
    (encodeStage encode s).err = s.err ∧
    (encodeStage encode s).adp = s.adp ∧
    (encodeStage encode s).trace = s.trace := by
  unfold encodeStage
  split <;> simp

/-- The write stage does not touch the inbound side, the dispatch state or
the read script, and never lowers the written-bytes counter. -/
theorem writeStage_frame (flags : Nat) (s : St) :
    (writeStage flags s).eng.committed = s.eng.committed ∧
    (writeStage flags s).eng.dispatched = s.eng.dispatched ∧
    (writeStage flags s).eng.encodedTotal = s.eng.encodedTotal ∧
    (writeStage flags s).eng.eosSeen = s.eng.eosSeen ∧
    (writeStage flags s).events = s.events ∧
    (writeStage flags s).adp.reads = s.adp.reads ∧
    s.eng.writtenTotal ≤ (writeStage flags s).eng.writtenTotal := by
  unfold writeStage
  split
  · simp
  split
  · simp
  split
  · simp
  split
  · simp
  split <;> simp

/-- The closed re-evaluation only flips the closed flag and logs the close
call. -/
theorem closeStage_frame (decode : List Byte → List Event) (s : St) :
    (closeStage decode s).eng.committed = s.eng.committed ∧
    (closeStage decode s).eng.dispatched = s.eng.dispatched ∧
    (closeStage decode s).eng.outQueue = s.eng.outQueue ∧
    (closeStage decode s).eng.encodedTotal = s.eng.encodedTotal ∧
    (closeStage decode s).eng.writtenTotal = s.eng.writtenTotal ∧
    (closeStage decode s).eng.eosSeen = s.eng.eosSeen ∧
    (closeStage decode s).eng.errorStr = s.eng.errorStr ∧
    (closeStage decode s).events = s.events ∧
    (closeStage decode s).err = s.err ∧
    (closeStage decode s).adp = s.adp := by
  unfold closeStage
  split
  · simp
  split
  · simp
  split <;> simp

/-- On an error-free read script the read stage keeps the error channel
clear and the closed flag and error description untouched. -/
theorem readStage_ok (flags : Nat) (s : St) (hE : s.err = none)
    (hA : s.adp.reads.all (fun r => ! r.isErr) = true) :
    (readStage flags s).err = none ∧
    (readStage flags s).eng.closed = s.eng.closed ∧
    (readStage flags s).eng.errorStr = s.eng.errorStr ∧
    (readStage flags s).adp.writes.all (fun w => ! w.isErr) =
      s.adp.writes.all (fun w => ! w.isErr) := by
  unfold readStage
  split
  · simp [hE]
  split
  · simp [hE]
  split
  · simp [hE]
  split
  · simp [hE]
  split
  · simp [hE]
  · simp [hE]
  · simp [hE]
  · rename_i m heq
    rw [heq] at hA
    simp [ReadRes.isErr] at hA

/-- On an error-free write script the write stage keeps the error channel
clear and the closed flag and error description untouched. -/
theorem writeStage_ok (flags : Nat) (s : St) (hE : s.err = none)
    (hA : s.adp.writes.all (fun w => ! w.isErr) = true) :
    (writeStage flags s).err = none ∧
    (writeStage flags s).eng.closed = s.eng.closed ∧
    (writeStage flags s).eng.errorStr = s.eng.errorStr := by
  unfold writeStage
  split
  · simp [hE]
  split
  · simp [hE]
  split
  · simp [hE]
  split
  · simp [hE]
  split
  · simp [hE]
  · rename_i m heq
    rw [heq] at hA
    simp [WriteRes.isErr] at hA

/-- On a closed engine `process` is the identity: no adapter calls, no
events, no error, same state. -/
theorem process_of_closed (decode : List Byte → List Event)
    (encode : List Byte → List Byte) (handler : Event → Option String)
    (flags : Nat) (e : Engine) (a : Adapter) (h : e.closed = true) :
    process decode encode handler flags e a = ⟨e, a, [], [], none⟩ := by
  simp [process, h]

/-- A run of `process` calls started on a closed engine does nothing. -/
theorem runEngine_of_closed (decode : List Byte → List Event)
    (encode : List Byte → List Byte) (handler : Event → Option String)
    (calls : List (Nat × Adapter)) (e : Engine) (h : e.closed = true) :
    runEngine decode encode handler calls e = (e, [], []) := by
  induction calls with
  | nil => rfl
  | cons c rest ih =>
    simp only [runEngine, process_of_closed decode encode handler c.1 e c.2 h]
    simp [ih]

/-! ### Claim theorems -/

/-- C3: once `closed()` is true, every subsequent `process()` call, with any
io_flags, is a no-op: the adapter sees no `io_read`, `io_write` or
`io_close` call (empty I/O trace, adapter script untouched), no event is
dispatched, no error is raised, the engine state is unchanged, and
`closed()` remains true afterwards. -/
theorem process_closed_is_noop (decode : List Byte → List Event)
    (encode : List Byte → List Byte) (handler : Event → Option String)
    (flags : Nat) (e : Engine) (a : Adapter) (h : e.closed = true) :
    process decode encode handler flags e a = ⟨e, a, [], [], none⟩ ∧
    (process decode encode handler flags e a).eng.closed = true := by
  refine ⟨process_of_closed decode encode handler flags e a h, ?_⟩
  rw [process_of_closed decode encode handler flags e a h]
  exact h

/-- Witness for C3 at a concrete closed engine and nonempty adapter script. -/
theorem process_closed_is_noop_witness :
    ({ mkEngine with closed := true } : Engine).closed = true ∧
    process (fun s => s) (fun s => s) (fun _ => none) 3
        { mkEngine with closed := true } ⟨[ReadRes.data [1, 2]], [WriteRes.accept 5]⟩ =
      ⟨{ mkEngine with closed := true }, ⟨[ReadRes.data [1, 2]], [WriteRes.accept 5]⟩,
        [], [], none⟩ :=
  ⟨rfl, (process_closed_is_noop (fun s => s) (fun s => s) (fun _ => none) 3
    { mkEngine with closed := true } ⟨[ReadRes.data [1, 2]], [WriteRes.accept 5]⟩ rfl).1⟩

/-- C9: two sequential `make_options()` calls on one container return
bundles whose link-name prefixes differ (the internal counter is
incremented by each call) while both bundles carry the same container
id. -/
theorem makeOptions_fresh_link_names (c : Container) :
    (c.makeOptions.2.makeOptions.1).linkName ≠ (c.makeOptions.1).linkName ∧
    (c.makeOptions.2.makeOptions.1).containerId = (c.makeOptions.1).containerId ∧
    (c.makeOptions.2).counter = c.counter + 1 := by
  refine ⟨?_, rfl, rfl⟩
  intro h
  simp only [Container.makeOptions, LinkName.mk.injEq] at h
  omega

/-- C4: when the adapter accepts `k` of the `m` offered bytes with `k < m`,
the write drain advances the written-bytes cursor by exactly `k`, and the
`m - k` undelivered bytes stay queued unchanged and in order — the tail of
the offered buffer — so the next drain, which always offers the front of
the queue, offers exactly that remainder. -/
theorem writeStage_partial_write (flags : Nat) (s : St) (k : Nat)
    (ws : List WriteRes) (hE : s.err = none) (hf : flags.testBit 1 = true)
    (hw : s.adp.writes = WriteRes.accept k :: ws)
    (hk : k < s.eng.outQueue.length) :
    (writeStage flags s).eng.writtenTotal = s.eng.writtenTotal + k ∧
    (writeStage flags s).eng.outQueue = s.eng.outQueue.drop k ∧
    s.eng.outQueue.take k ++ (writeStage flags s).eng.outQueue = s.eng.outQueue := by
  have hne : s.eng.outQueue.isEmpty = false := by
    cases hq : s.eng.outQueue with
    | nil => rw [hq] at hk; simp at hk
    | cons x xs => simp [hq]
  have hmin : min k s.eng.outQueue.length = k := Nat.min_eq_left (Nat.le_of_lt hk)
  unfold writeStage
  rw [hE, hw]
  simp [hne, hf, hmin, List.take_append_drop]

/-- Witness for C4: a five-byte queue, the adapter accepts two bytes. -/
theorem writeStage_partial_write_witness :
    (writeStage 2 ⟨{ mkEngine with outQueue := [10, 11, 12, 13, 14] },
        ⟨[], [WriteRes.accept 2]⟩, [], [], none⟩).eng.writtenTotal = 0 + 2 ∧
    (writeStage 2 ⟨{ mkEngine with outQueue := [10, 11, 12, 13, 14] },
        ⟨[], [WriteRes.accept 2]⟩, [], [], none⟩).eng.outQueue =
      [10, 11, 12, 13, 14].drop 2 ∧
    [10, 11, 12, 13, 14].take 2 ++
        (writeStage 2 ⟨{ mkEngine with outQueue := [10, 11, 12, 13, 14] },
          ⟨[], [WriteRes.accept 2]⟩, [], [], none⟩).eng.outQueue =
      [10, 11, 12, 13, 14] :=
  writeStage_partial_write 2
    ⟨{ mkEngine with outQueue := [10, 11, 12, 13, 14] },
      ⟨[], [WriteRes.accept 2]⟩, [], [], none⟩ 2 [] rfl (by decide) rfl (by decide)

/-- The write-accounting balance: the pending outbound queue holds exactly
the bytes the core has encoded that the adapter has not yet accepted. -/
def writeBal (e : Engine) : Prop :=
  e.writtenTotal + e.outQueue.length = e.encodedTotal

/-- The read stage preserves the write-accounting balance. -/
theorem readStage_bal (flags : Nat) (s : St) (h : writeBal s.eng) :
    writeBal (readStage flags s).eng := by
  obtain ⟨bs, _, _, hq, hen, hw, _, _⟩ := readStage_frame flags s
  unfold writeBal at *
  rw [hq, hen, hw]
  exact h

/-- The dispatch stage preserves the write-accounting balance. -/
theorem dispatchStage_bal (decode : List Byte → List Event)
    (handler : Event → Option String) (s : St) (h : writeBal s.eng) :
    writeBal (dispatchStage decode handler s).eng := by
  obtain ⟨_, hq, hen, hw, _, _, _, _, _⟩ := dispatchStage_frame decode handler s
  unfold writeBal at *
  rw [hq, hen, hw]
  exact h

/-- The encode stage preserves the write-accounting balance: it appends the
newly encoded bytes to the queue and counts them at the same time. -/
theorem encodeStage_bal (encode : List Byte → List Byte) (s : St)
    (h : writeBal s.eng) : writeBal (encodeStage encode s).eng := by
  unfold writeBal at *
  unfold encodeStage
  split
  · exact h
  · simp
    omega

/-- The write stage preserves the write-accounting balance: the send cursor
advances by exactly the number of bytes removed from the queue. -/
theorem writeStage_bal (flags : Nat) (s : St) (h : writeBal s.eng) :
    writeBal (writeStage flags s).eng := by
  unfold writeBal at *
  unfold writeStage
  split
  · exact h
  split
  · exact h
  split
  · exact h
  split
  · exact h
  split
  · rename_i k heq
    have hmin : min k s.eng.outQueue.length ≤ s.eng.outQueue.length :=
      Nat.min_le_right k s.eng.outQueue.length
    simp [List.length_drop]
    omega
  · simpa using h

/-- The closed re-evaluation preserves the write-accounting balance. -/
theorem closeStage_bal (decode : List Byte → List Event) (s : St)
    (h : writeBal s.eng) : writeBal (closeStage decode s).eng := by
  obtain ⟨_, _, hq, hen, hw, _, _, _, _, _⟩ := closeStage_frame decode s
  unfold writeBal at *
  rw [hq, hen, hw]
  exact h

/-- One `process` call preserves the write-accounting balance. -/
theorem process_bal (decode : List Byte → List Event)
    (encode : List Byte → List Byte) (handler : Event → Option String)
    (flags : Nat) (e : Engine) (a : Adapter) (h : writeBal e) :
    writeBal (process decode encode handler flags e a).eng := by
  unfold process
  split
  · exact h
  · exact closeStage_bal decode _
      (writeStage_bal flags _
        (encodeStage_bal encode _
          (dispatchStage_bal decode handler _
            (readStage_bal flags ⟨e, a, [], [], none⟩ h))))

/-- C5: after any `process()` call, `can_write()` equals exactly the number
of outbound bytes the protocol core has encoded minus the bytes the adapter
has reported written; `can_write` itself is a pure projection of the engine
state, so it performs no I/O and no dispatch. -/
theorem canWrite_exact_after_process (decode : List Byte → List Event)
    (encode : List Byte → List Byte) (handler : Event → Option String)
    (flags : Nat) (e : Engine) (a : Adapter)
    (h : e.writtenTotal + canWrite e = e.encodedTotal) :
    (process decode encode handler flags e a).eng.writtenTotal +
        canWrite (process decode encode handler flags e a).eng =
      (process decode encode handler flags e a).eng.encodedTotal := by
  have := process_bal decode encode handler flags e a h
  exact this

/-- Witness for C5: a fresh engine, one read committing three bytes, an
identity core encoding three bytes, an adapter accepting two of them. -/
theorem canWrite_exact_after_process_witness :
    ((0 : Nat) + canWrite mkEngine = 0) ∧
    (process (fun s => s) (fun s => s) (fun _ => none) 3 mkEngine
          ⟨[ReadRes.data [1, 2, 3]], [WriteRes.accept 2]⟩).eng.writtenTotal +
        canWrite (process (fun s => s) (fun s => s) (fun _ => none) 3 mkEngine
          ⟨[ReadRes.data [1, 2, 3]], [WriteRes.accept 2]⟩).eng =
      (process (fun s => s) (fun s => s) (fun _ => none) 3 mkEngine
          ⟨[ReadRes.data [1, 2, 3]], [WriteRes.accept 2]⟩).eng.encodedTotal :=
  ⟨by decide,
    canWrite_exact_after_process (fun s => s) (fun s => s) (fun _ => none) 3 mkEngine
      ⟨[ReadRes.data [1, 2, 3]], [WriteRes.accept 2]⟩ (by decide)⟩

/-- C8: a would-block read — the adapter returning `(0, true)` — on an
otherwise quiescent open engine is absorbed silently: `process()` returns
with no event dispatched, no error raised, and `closed()` still false. -/
theorem process_absorbs_would_block (decode : List Byte → List Event)
    (encode : List Byte → List Byte) (handler : Event → Option String)
    (flags : Nat) (e : Engine) (a : Adapter) (rs : List ReadRes)
    (hc : e.closed = false) (he : e.eosSeen = false)
    (hd : e.dispatched = (decode e.committed).length)
    (hen : e.encodedTotal = (encode e.committed).length)
    (hq : e.outQueue = [])
    (ha : a.reads = ReadRes.wouldBlock :: rs) :
    (process decode encode handler flags e a).events = [] ∧
    (process decode encode handler flags e a).err = none ∧
    (process decode encode handler flags e a).eng.closed = false := by
  cases hb0 : flags.testBit 0 <;> cases hb1 : flags.testBit 1 <;>
    simp [process, readStage, dispatchStage, encodeStage, writeStage, closeStage,
      quiescent, runHandler, hc, he, hd, hen, hq, ha, hb0, hb1, List.drop_length]

/-- Witness for C8: a fresh engine and an adapter whose read always
would-block. -/
theorem process_absorbs_would_block_witness :
    (process (fun s => s) (fun s => s) (fun _ => none) 3 mkEngine
        ⟨[ReadRes.wouldBlock], []⟩).events = [] ∧
    (process (fun s => s) (fun s => s) (fun _ => none) 3 mkEngine
        ⟨[ReadRes.wouldBlock], []⟩).err = none ∧
    (process (fun s => s) (fun s => s) (fun _ => none) 3 mkEngine
        ⟨[ReadRes.wouldBlock], []⟩).eng.closed = false :=
  process_absorbs_would_block (fun s => s) (fun s => s) (fun _ => none) 3 mkEngine
    ⟨[ReadRes.wouldBlock], []⟩ [] rfl rfl rfl rfl rfl rfl

/-- C10: an exception raised by the application handler while an event is
dispatched inside `process()` is not swallowed: `process()` ends with that
handler exception on its error channel, after having delivered the event
the handler threw on. -/
theorem process_propagates_handler_exception (decode : List Byte → List Event)
    (encode : List Byte → List Byte) (handler : Event → Option String)
    (flags : Nat) (e : Engine) (a : Adapter) (ev : Event) (tl : List Event)
    (m : String) (hc : e.closed = false) (hf : flags.testBit 0 = false)
    (hp : (decode e.committed).drop e.dispatched = ev :: tl)
    (hh : handler ev = some m) :
    (process decode encode handler flags e a).err = some (EngErr.handlerErr m) ∧
    (process decode encode handler flags e a).events = [ev] := by
  simp [process, readStage, dispatchStage, encodeStage, writeStage, closeStage,
    runHandler, hc, hf, hp, hh]

/-- Witness for C10: the core generates event 7 and the handler throws on
it. -/
theorem process_propagates_handler_exception_witness :
    (process (fun _ => [7]) (fun s => s)
        (fun ev => if ev == 7 then some "app failure" else none) 0 mkEngine
        ⟨[], []⟩).err = some (EngErr.handlerErr "app failure") ∧
    (process (fun _ => [7]) (fun s => s)
        (fun ev => if ev == 7 then some "app failure" else none) 0 mkEngine
        ⟨[], []⟩).events = [7] :=
  process_propagates_handler_exception (fun _ => [7]) (fun s => s)
    (fun ev => if ev == 7 then some "app failure" else none) 0 mkEngine
    ⟨[], []⟩ 7 [] "app failure" rfl rfl rfl rfl

/-- On a clear error channel, the read stage either stays clear or raises an
adapter I/O error, in which case it marks the engine closed and records the
description before the error propagates. -/
theorem readStage_err_cases (flags : Nat) (s : St) (hE : s.err = none) :
    (readStage flags s).err = none ∨
    ∃ m, (readStage flags s).err = some (EngErr.ioErr m) ∧
      (readStage flags s).eng.closed = true ∧
      (readStage flags s).eng.errorStr = some m := by
  unfold readStage
  split
  · exact Or.inl hE
  split
  · exact Or.inl hE
  split
  · exact Or.inl hE
  split
  · exact Or.inl hE
  split
  · exact Or.inl (by simpa using hE)
  · exact Or.inl (by simpa using hE)
  · exact Or.inl (by simpa using hE)
  · rename_i m heq
    exact Or.inr ⟨m, by simp⟩

/-- On a clear error channel, the dispatch stage either stays clear or
raises a handler exception — never an adapter I/O error. -/
theorem dispatchStage_err_cases (decode : List Byte → List Event)
    (handler : Event → Option String) (s : St) (hE : s.err = none) :
    (dispatchStage decode handler s).err = none ∨
    ∃ m, (dispatchStage decode handler s).err = some (EngErr.handlerErr m) := by
  unfold dispatchStage
  rw [hE]
  simp only [Option.isSome_none, Bool.false_eq_true, if_false]
  cases hr : (runHandler handler ((decode s.eng.committed).drop s.eng.dispatched)).2 with
  | none => exact Or.inl (by simp [hr])
  | some m => exact Or.inr ⟨m, by simp [hr]⟩

/-- On a clear error channel, the write stage either stays clear or raises
an adapter I/O error, in which case it marks the engine closed and records
the description before the error propagates. -/
theorem writeStage_err_cases (flags : Nat) (s : St) (hE : s.err = none) :
    (writeStage flags s).err = none ∨
    ∃ m, (writeStage flags s).err = some (EngErr.ioErr m) ∧
      (writeStage flags s).eng.closed = true ∧
      (writeStage flags s).eng.errorStr = some m := by
  unfold writeStage
  split
  · exact Or.inl hE
  split
  · exact Or.inl hE
  split
  · exact Or.inl hE
  split
  · exact Or.inl (by simpa using hE)
  split
  · exact Or.inl (by simpa using hE)
  · rename_i m heq
    exact Or.inr ⟨m, by simp⟩

/-- C7: when an adapter `io_read` or `io_write` raises an I/O error during
`process()`, the call aborts with that error on its error channel, the
engine is marked closed before the error reaches the caller, the
human-readable description is recorded in the engine state for later
retrieval, and no progress is rolled back: the bytes already committed to
the protocol core are still there (the committed stream only grew) and the
bytes already reported written by the adapter stay counted. -/
theorem process_io_error_closes_first (decode : List Byte → List Event)
    (encode : List Byte → List Byte) (handler : Event → Option String)
    (flags : Nat) (e : Engine) (a : Adapter) (m : String)
    (h : (process decode encode handler flags e a).err = some (EngErr.ioErr m)) :
    (process decode encode handler flags e a).eng.closed = true ∧
    (process decode encode handler flags e a).eng.errorStr = some m ∧
    (∃ bs, (process decode encode handler flags e a).eng.committed = e.committed ++ bs) ∧
    e.writtenTotal ≤ (process decode encode handler flags e a).eng.writtenTotal := by
  by_cases hcl : e.closed = true
  · rw [process_of_closed decode encode handler flags e a hcl] at h
    exact absurd h (by simp)
  have hcl2 : e.closed = false := by simpa using hcl
  have hpe : process decode encode handler flags e a =
      closeStage decode (writeStage flags (encodeStage encode
        (dispatchStage decode handler (readStage flags ⟨e, a, [], [], none⟩)))) := by
    simp [process, hcl2]
  rw [hpe] at h ⊢
  rcases readStage_err_cases flags ⟨e, a, [], [], none⟩ rfl with h1 | ⟨m1, h1e, h1cl, h1str⟩
  · rcases dispatchStage_err_cases decode handler (readStage flags ⟨e, a, [], [], none⟩) h1
      with h2 | ⟨m2, h2e⟩
    · have h3 : (encodeStage encode (dispatchStage decode handler
          (readStage flags ⟨e, a, [], [], none⟩))).err = none := by
        rw [(encodeStage_frame encode _).2.2.2.2.2.2.2.1]
        exact h2
      rcases writeStage_err_cases flags (encodeStage encode (dispatchStage decode handler
          (readStage flags ⟨e, a, [], [], none⟩))) h3 with h4 | ⟨m4, h4e, h4cl, h4str⟩
      · rw [(closeStage_frame decode _).2.2.2.2.2.2.2.2.1, h4] at h
        exact absurd h (by simp)
      · have e5 : closeStage decode (writeStage flags (encodeStage encode
            (dispatchStage decode handler (readStage flags ⟨e, a, [], [], none⟩)))) =
            writeStage flags (encodeStage encode (dispatchStage decode handler
              (readStage flags ⟨e, a, [], [], none⟩))) :=
          closeStage_skip decode _ (by rw [h4e]; rfl)
        rw [e5] at h ⊢
        rw [h4e] at h
        have hm : m4 = m := by simpa using h
        subst hm
        obtain ⟨bs, r1c, _, _, _, r1w, _, _⟩ :=
          readStage_frame flags (⟨e, a, [], [], none⟩ : St)
        have d2 := dispatchStage_frame decode handler (readStage flags ⟨e, a, [], [], none⟩)
        have e3 := encodeStage_frame encode (dispatchStage decode handler
          (readStage flags ⟨e, a, [], [], none⟩))
        have w4 := writeStage_frame flags (encodeStage encode (dispatchStage decode handler
          (readStage flags ⟨e, a, [], [], none⟩)))
        refine ⟨h4cl, h4str, ⟨bs, ?_⟩, ?_⟩
        · rw [w4.1, e3.1, d2.1, r1c]
        · have := w4.2.2.2.2.2.2
          rw [e3.2.2.1, d2.2.2.2.1, r1w] at this
          exact this
    · have e3 : encodeStage encode (dispatchStage decode handler
          (readStage flags ⟨e, a, [], [], none⟩)) =
          dispatchStage decode handler (readStage flags ⟨e, a, [], [], none⟩) :=
        encodeStage_skip encode _ (by rw [h2e]; rfl)
      have e4 : writeStage flags (dispatchStage decode handler
          (readStage flags ⟨e, a, [], [], none⟩)) =
          dispatchStage decode handler (readStage flags ⟨e, a, [], [], none⟩) :=
        writeStage_skip flags _ (by rw [h2e]; rfl)
      have e5 : closeStage decode (dispatchStage decode handler
          (readStage flags ⟨e, a, [], [], none⟩)) =
          dispatchStage decode handler (readStage flags ⟨e, a, [], [], none⟩) :=
        closeStage_skip decode _ (by rw [h2e]; rfl)
      rw [e3, e4, e5, h2e] at h
      exact absurd h (by simp)
  · have e2 : dispatchStage decode handler (readStage flags ⟨e, a, [], [], none⟩) =
        readStage flags ⟨e, a, [], [], none⟩ :=
      dispatchStage_skip decode handler _ (by rw [h1e]; rfl)
    have e3 : encodeStage encode (readStage flags ⟨e, a, [], [], none⟩) =
        readStage flags ⟨e, a, [], [], none⟩ :=
      encodeStage_skip encode _ (by rw [h1e]; rfl)
    have e4 : writeStage flags (readStage flags ⟨e, a, [], [], none⟩) =
        readStage flags ⟨e, a, [], [], none⟩ :=
      writeStage_skip flags _ (by rw [h1e]; rfl)
    have e5 : closeStage decode (readStage flags ⟨e, a, [], [], none⟩) =
        readStage flags ⟨e, a, [], [], none⟩ :=
      closeStage_skip decode _ (by rw [h1e]; rfl)
    rw [e2, e3, e4, e5] at h ⊢
    rw [h1e] at h
    have hm : m1 = m := by simpa using h
    subst hm
    obtain ⟨bs, r1c, _, _, _, r1w, _, _⟩ :=
      readStage_frame flags (⟨e, a, [], [], none⟩ : St)
    exact ⟨h1cl, h1str, ⟨bs, r1c⟩, by rw [r1w]⟩

/-- Witness for C7: the adapter read fails with description "broken pipe"
on a fresh engine. -/
theorem process_io_error_closes_first_witness :
    (process (fun s => s) (fun s => s) (fun _ => none) 3 mkEngine
        ⟨[ReadRes.rerr "broken pipe"], []⟩).err = some (EngErr.ioErr "broken pipe") ∧
    ((process (fun s => s) (fun s => s) (fun _ => none) 3 mkEngine
        ⟨[ReadRes.rerr "broken pipe"], []⟩).eng.closed = true ∧
      (process (fun s => s) (fun s => s) (fun _ => none) 3 mkEngine
        ⟨[ReadRes.rerr "broken pipe"], []⟩).eng.errorStr = some "broken pipe" ∧
      (∃ bs, (process (fun s => s) (fun s => s) (fun _ => none) 3 mkEngine
        ⟨[ReadRes.rerr "broken pipe"], []⟩).eng.committed = mkEngine.committed ++ bs) ∧
      mkEngine.writtenTotal ≤ (process (fun s => s) (fun s => s) (fun _ => none) 3 mkEngine
        ⟨[ReadRes.rerr "broken pipe"], []⟩).eng.writtenTotal) :=
  ⟨rfl, process_io_error_closes_first (fun s => s) (fun s => s) (fun _ => none) 3 mkEngine
    ⟨[ReadRes.rerr "broken pipe"], []⟩ "broken pipe" rfl⟩

/-- On a clear error channel the read stage either does nothing, logs one
`io_read` call, or logs an `io_read` and the error-path `io_close`, closing
the engine. -/
theorem readStage_trace (flags : Nat) (s : St) (hE : s.err = none) :
    readStage flags s = s ∨
    ((readStage flags s).err = none ∧
      (readStage flags s).eng.closed = s.eng.closed ∧
      (readStage flags s).trace = s.trace ++ [IOCall.readC]) ∨
    ((readStage flags s).err.isSome = true ∧
      (readStage flags s).eng.closed = true ∧
      (readStage flags s).trace = s.trace ++ [IOCall.readC, IOCall.closeC]) := by
  unfold readStage
  split
  · exact Or.inl rfl
  split
  · exact Or.inl rfl
  split
  · exact Or.inl rfl
  split
  · exact Or.inr (Or.inl ⟨by simpa using hE, rfl, rfl⟩)
  split
  · exact Or.inr (Or.inl ⟨by simpa using hE, rfl, rfl⟩)
  · exact Or.inr (Or.inl ⟨by simpa using hE, rfl, rfl⟩)
  · exact Or.inr (Or.inl ⟨by simpa using hE, rfl, rfl⟩)
  · exact Or.inr (Or.inr ⟨rfl, rfl, by simp⟩)

/-- On a clear error channel the write stage either does nothing, logs one
`io_write` call, or logs an `io_write` and the error-path `io_close`,
closing the engine. -/
theorem writeStage_trace (flags : Nat) (s : St) (hE : s.err = none) :
    writeStage flags s = s ∨
    ((writeStage flags s).err = none ∧
      (writeStage flags s).eng.closed = s.eng.closed ∧
      (writeStage flags s).trace = s.trace ++ [IOCall.writeC]) ∨
    ((writeStage flags s).err.isSome = true ∧
      (writeStage flags s).eng.closed = true ∧
      (writeStage flags s).trace = s.trace ++ [IOCall.writeC, IOCall.closeC]) := by
  unfold writeStage
  split
  · exact Or.inl rfl
  split
  · exact Or.inl rfl
  split
  · exact Or.inl rfl
  split
  · exact Or.inr (Or.inl ⟨by simpa using hE, rfl, rfl⟩)
  split
  · exact Or.inr (Or.inl ⟨by simpa using hE, rfl, rfl⟩)
  · exact Or.inr (Or.inr ⟨rfl, rfl, by simp⟩)

/-- On a clear error channel and an open engine the closed re-evaluation
either leaves the state alone or closes the engine and logs the one
`io_close` call. -/
theorem closeStage_trace (decode : List Byte → List Event) (s : St) :
    closeStage decode s = s ∨
    ((closeStage decode s).eng.closed = true ∧
      (closeStage decode s).trace = s.trace ++ [IOCall.closeC]) := by
  unfold closeStage
  split
  · exact Or.inl rfl
  split
  · exact Or.inl rfl
  split
  · exact Or.inr ⟨rfl, rfl⟩
  · exact Or.inl rfl

/-- From an open engine with a clear error channel and a trace of at most
one read call, the remaining dispatch, encode, write and close steps log
`io_close` exactly when they close the engine, and only as the last call. -/
theorem tail_trace (decode : List Byte → List Event) (encode : List Byte → List Byte)
    (handler : Event → Option String) (flags : Nat) (t1 : St)
    (hE : t1.err = none) (hcl : t1.eng.closed = false)
    (htr : t1.trace = [] ∨ t1.trace = [IOCall.readC]) :
    ((closeStage decode (writeStage flags (encodeStage encode
        (dispatchStage decode handler t1)))).trace.count IOCall.closeC =
      if (closeStage decode (writeStage flags (encodeStage encode
        (dispatchStage decode handler t1)))).eng.closed = true then 1 else 0) ∧
    closeIsLast (closeStage decode (writeStage flags (encodeStage encode
        (dispatchStage decode handler t1)))).trace = true := by
  set s2 := dispatchStage decode handler t1 with hs2
  set s3 := encodeStage encode s2 with hs3
  set s4 := writeStage flags s3 with hs4
  set s5 := closeStage decode s4 with hs5
  obtain ⟨_, _, _, _, _, d6, _, _, d9⟩ := dispatchStage_frame decode handler t1
  rcases dispatchStage_err_cases decode handler t1 hE with h2 | ⟨m2, h2e⟩
  · obtain ⟨_, _, _, _, e5c, _, _, e8, _, e10⟩ := encodeStage_frame encode s2
    have h3E : s3.err = none := by rw [e8]; exact h2
    have h3cl : s3.eng.closed = false := by rw [e5c, d6]; exact hcl
    have h3tr : s3.trace = [] ∨ s3.trace = [IOCall.readC] := by
      rw [e10, d9]; exact htr
    rcases writeStage_trace flags s3 h3E with h4 | ⟨h4e, h4cl, h4tr⟩ | ⟨h4e, h4cl, h4tr⟩
    · rw [hs5, hs4, h4]
      rcases closeStage_trace decode s3 with h5 | ⟨h5cl, h5tr⟩
      · rw [h5]
        rcases h3tr with h | h <;> rw [h, h3cl] <;> exact ⟨by decide, by decide⟩
      · rw [h5cl, h5tr]
        rcases h3tr with h | h <;> rw [h] <;> exact ⟨by decide, by decide⟩
    · have h4clf : s4.eng.closed = false := by rw [h4cl]; exact h3cl
      rw [hs5]
      rcases closeStage_trace decode s4 with h5 | ⟨h5cl, h5tr⟩
      · rw [h5, h4tr, h4clf]
        rcases h3tr with h | h <;> rw [h] <;> exact ⟨by decide, by decide⟩
      · rw [h5cl, h5tr, h4tr]
        rcases h3tr with h | h <;> rw [h] <;> exact ⟨by decide, by decide⟩
    · have e5 : closeStage decode s4 = s4 := closeStage_skip decode s4 h4e
      rw [hs5, e5, h4tr, h4cl]
      rcases h3tr with h | h <;> rw [h] <;> exact ⟨by decide, by decide⟩
  · have e3 : encodeStage encode s2 = s2 := encodeStage_skip encode s2 (by rw [h2e]; rfl)
    have e4 : writeStage flags s2 = s2 := writeStage_skip flags s2 (by rw [h2e]; rfl)
    have e5 : closeStage decode s2 = s2 := closeStage_skip decode s2 (by rw [h2e]; rfl)
    rw [hs5, hs4, hs3, e3, e4, e5, d9, d6, hcl]
    rcases htr with h | h <;> rw [h] <;> exact ⟨by decide, by decide⟩

/-- One `process` call on an open engine logs `io_close` exactly when it
ends closed, and never makes an adapter call after `io_close`. -/
theorem process_trace_close (decode : List Byte → List Event)
    (encode : List Byte → List Byte) (handler : Event → Option String)
    (flags : Nat) (e : Engine) (a : Adapter) (hc : e.closed = false) :
    ((process decode encode handler flags e a).trace.count IOCall.closeC =
      if (process decode encode handler flags e a).eng.closed = true then 1 else 0) ∧
    closeIsLast (process decode encode handler flags e a).trace = true := by
  have hpe : process decode encode handler flags e a =
      closeStage decode (writeStage flags (encodeStage encode
        (dispatchStage decode handler (readStage flags ⟨e, a, [], [], none⟩)))) := by
    simp [process, hc]
  rw [hpe]
  rcases readStage_trace flags ⟨e, a, [], [], none⟩ rfl with h1 | ⟨h1e, h1cl, h1tr⟩ |
    ⟨h1e, h1cl, h1tr⟩
  · rw [h1]
    exact tail_trace decode encode handler flags ⟨e, a, [], [], none⟩ rfl hc (Or.inl rfl)
  · exact tail_trace decode encode handler flags (readStage flags ⟨e, a, [], [], none⟩)
      h1e (by rw [h1cl]; exact hc) (Or.inr (by simpa using h1tr))
  · have e2 : dispatchStage decode handler (readStage flags ⟨e, a, [], [], none⟩) =
        readStage flags ⟨e, a, [], [], none⟩ := dispatchStage_skip decode handler _ h1e
    have e3 : encodeStage encode (readStage flags ⟨e, a, [], [], none⟩) =
        readStage flags ⟨e, a, [], [], none⟩ := encodeStage_skip encode _ h1e
    have e4 : writeStage flags (readStage flags ⟨e, a, [], [], none⟩) =
        readStage flags ⟨e, a, [], [], none⟩ := writeStage_skip flags _ h1e
    have e5 : closeStage decode (readStage flags ⟨e, a, [], [], none⟩) =
        readStage flags ⟨e, a, [], [], none⟩ := closeStage_skip decode _ h1e
    rw [e2, e3, e4, e5, h1tr, h1cl]
    exact ⟨by simp [List.count_cons], by simp [closeIsLast]⟩

/-- Appending a close-respecting trace to a trace without a close call
yields a close-respecting trace. -/
theorem closeIsLast_append (t u : List IOCall) (h : IOCall.closeC ∉ t)
    (hu : closeIsLast u = true) : closeIsLast (t ++ u) = true := by
  induction t with
  | nil => simpa
  | cons c cs ih =>
    have hc : c ≠ IOCall.closeC := fun hh => h (by simp [hh])
    have hmem : IOCall.closeC ∉ cs := fun hh => h (by simp [hh])
    cases c with
    | readC => simpa [closeIsLast] using ih hmem
    | writeC => simpa [closeIsLast] using ih hmem
    | closeC => exact absurd rfl hc

/-- Over any run from an open engine, the `io_close` count is one exactly
when the run ends closed, and no adapter call ever follows `io_close`. -/
theorem run_trace_close (decode : List Byte → List Event)
    (encode : List Byte → List Byte) (handler : Event → Option String)
    (calls : List (Nat × Adapter)) :
    ∀ e : Engine, e.closed = false →
      (((runEngine decode encode handler calls e).2.1.count IOCall.closeC =
        if (runEngine decode encode handler calls e).1.closed = true then 1 else 0) ∧
      closeIsLast (runEngine decode encode handler calls e).2.1 = true) := by
  induction calls with
  | nil =>
    intro e hc
    simp [runEngine, hc, closeIsLast]
  | cons c rest ih =>
    intro e hc
    obtain ⟨hcount, hlast⟩ := process_trace_close decode encode handler c.1 e c.2 hc
    by_cases h2 : (process decode encode handler c.1 e c.2).eng.closed = true
    · have hrest := runEngine_of_closed decode encode handler rest
        (process decode encode handler c.1 e c.2).eng h2
      simp only [runEngine, hrest]
      rw [h2] at hcount
      simp [hcount, hlast, h2]
    · have h2f : (process decode encode handler c.1 e c.2).eng.closed = false := by
        simpa using h2
      rw [h2f] at hcount
      simp only [if_false, Bool.false_eq_true] at hcount
      have hnot : IOCall.closeC ∉ (process decode encode handler c.1 e c.2).trace :=
        List.count_eq_zero.mp hcount
      obtain ⟨ihc, ihl⟩ := ih (process decode encode handler c.1 e c.2).eng h2f
      simp only [runEngine]
      refine ⟨?_, closeIsLast_append _ _ hnot ihl⟩
      rw [List.count_append, hcount, ihc]
      simp

/-- C6: over the whole lifetime of an engine — any sequence of `process()`
calls from a fresh engine — the adapter `io_close` is invoked at most once:
its count in the I/O call trace is one exactly on the runs that end in the
closed state and zero otherwise, and `io_close` only ever appears as the
very last adapter call, so no `io_read` or `io_write` follows it. -/
theorem run_io_close_exactly_once (decode : List Byte → List Event)
    (encode : List Byte → List Byte) (handler : Event → Option String)
    (calls : List (Nat × Adapter)) :
    ((runEngine decode encode handler calls mkEngine).2.1.count IOCall.closeC =
      if (runEngine decode encode handler calls mkEngine).1.closed = true then 1 else 0) ∧
    closeIsLast (runEngine decode encode handler calls mkEngine).2.1 = true :=
  run_trace_close decode encode handler calls mkEngine rfl

/-- One `process` call under a streaming core, a non-throwing handler and an
error-free adapter script: it returns no error, drains every pending event,
and extends the dispatched-event history by exactly the newly generated
events — the events dispatched so far, in order, are exactly the events the
core has generated for the committed stream. -/
theorem process_total_step (decode : List Byte → List Event)
    (encode : List Byte → List Byte) (handler : Event → Option String)
    (flags : Nat) (e : Engine) (a : Adapter)
    (hM : Mono decode) (hT : ∀ ev, handler ev = none)
    (hA : a.errFree = true)
    (hd : e.dispatched ≤ (decode e.committed).length)
    (hcl : e.closed = true → e.dispatched = (decode e.committed).length) :
    (process decode encode handler flags e a).err = none ∧
    (process decode encode handler flags e a).eng.dispatched =
      (decode (process decode encode handler flags e a).eng.committed).length ∧
    (decode e.committed).take e.dispatched ++
        (process decode encode handler flags e a).events =
      decode (process decode encode handler flags e a).eng.committed := by
  by_cases hclb : e.closed = true
  · rw [process_of_closed decode encode handler flags e a hclb]
    have hdl := hcl hclb
    refine ⟨rfl, hdl, ?_⟩
    rw [List.append_nil, hdl, List.take_length]
  · have hc2 : e.closed = false := by simpa using hclb
    have hpe : process decode encode handler flags e a =
        closeStage decode (writeStage flags (encodeStage encode
          (dispatchStage decode handler (readStage flags ⟨e, a, [], [], none⟩)))) := by
      simp [process, hc2]
    rw [hpe]
    simp only [Adapter.errFree, Bool.and_eq_true] at hA
    obtain ⟨hAr, hAw⟩ := hA
    set s1 := readStage flags (⟨e, a, [], [], none⟩ : St) with hs1
    obtain ⟨bs, f1c, f1d, _, _, _, f1ev, f1w⟩ :=
      readStage_frame flags (⟨e, a, [], [], none⟩ : St)
    obtain ⟨h1E, _, _, h1W⟩ := readStage_ok flags (⟨e, a, [], [], none⟩ : St) rfl hAr
    set s2 := dispatchStage decode handler s1 with hs2
    have h2eq := dispatchStage_eq decode handler s1 h1E
    have hrh := runHandler_total handler hT
      ((decode s1.eng.committed).drop s1.eng.dispatched)
    have h2E : s2.err = none := by rw [hs2, h2eq]; simp [hrh]
    have h2d : s2.eng.dispatched = s1.eng.dispatched +
        ((decode s1.eng.committed).drop s1.eng.dispatched).length := by
      rw [hs2, h2eq]; simp [hrh]
    have h2ev : s2.events = s1.events ++
        (decode s1.eng.committed).drop s1.eng.dispatched := by
      rw [hs2, h2eq]; simp [hrh, List.take_length]
    have h2c : s2.eng.committed = s1.eng.committed :=
      (dispatchStage_frame decode handler s1).1
    have h2adp : s2.adp = s1.adp :=
      (dispatchStage_frame decode handler s1).2.2.2.2.2.2.2.1
    set s3 := encodeStage encode s2 with hs3
    obtain ⟨f3c, f3d, _, _, _, _, f3ev, f3E, f3adp, _⟩ := encodeStage_frame encode s2
    have h3W : s3.adp.writes.all (fun w => ! w.isErr) = true := by
      rw [f3adp, h2adp, h1W]
      exact hAw
    set s4 := writeStage flags s3 with hs4
    obtain ⟨f4c, f4d, _, _, f4ev, _, _⟩ := writeStage_frame flags s3
    obtain ⟨h4E, _, _⟩ := writeStage_ok flags s3 (by rw [f3E]; exact h2E) h3W
    set s5 := closeStage decode s4 with hs5
    obtain ⟨f5c, f5d, _, _, _, _, _, f5ev, f5E, _⟩ := closeStage_frame decode s4
    have hcc : s5.eng.committed = e.committed ++ bs := by
      rw [f5c, f4c, f3c, h2c, f1c]
    have hdd : s5.eng.dispatched = e.dispatched +
        ((decode (e.committed ++ bs)).drop e.dispatched).length := by
      rw [f5d, f4d, f3d, h2d, f1d, f1c]
    have hev : s5.events = (decode (e.committed ++ bs)).drop e.dispatched := by
      rw [f5ev, f4ev, f3ev, h2ev, f1ev, f1c, f1d]
      simp
    obtain ⟨u, hu⟩ := hM e.committed bs
    refine ⟨by rw [f5E]; exact h4E, ?_, ?_⟩
    · rw [hdd, hcc, ← hu]
      have hld : ((decode e.committed ++ u).drop e.dispatched).length =
          (decode e.committed ++ u).length - e.dispatched := by
        simp [List.length_drop]
      rw [hld]
      have hla : (decode e.committed ++ u).length =
          (decode e.committed).length + u.length := by simp
      omega
    · rw [hev, hcc, ← hu, ← List.take_append_of_le_length hd]
      exact List.take_append_drop e.dispatched (decode e.committed ++ u)

/-- Run-level dispatch accounting: under a streaming core, a non-throwing
handler and error-free adapter scripts, the events dispatched over a run
extend the dispatched history exactly to the events the core generated,
and any nonempty run ends fully drained. -/
theorem run_total (decode : List Byte → List Event) (encode : List Byte → List Byte)
    (handler : Event → Option String) (hM : Mono decode)
    (hT : ∀ ev, handler ev = none) :
    ∀ (calls : List (Nat × Adapter)) (e : Engine),
      (∀ p ∈ calls, p.2.errFree = true) →
      e.dispatched ≤ (decode e.committed).length →
      (e.closed = true → e.dispatched = (decode e.committed).length) →
      ((decode e.committed).take e.dispatched ++
          (runEngine decode encode handler calls e).2.2 =
        (decode (runEngine decode encode handler calls e).1.committed).take
          (runEngine decode encode handler calls e).1.dispatched) ∧
      ((runEngine decode encode handler calls e).1.dispatched ≤
        (decode (runEngine decode encode handler calls e).1.committed).length) ∧
      ((runEngine decode encode handler calls e).1.closed = true →
        (runEngine decode encode handler calls e).1.dispatched =
          (decode (runEngine decode encode handler calls e).1.committed).length) ∧
      (calls ≠ [] → (runEngine decode encode handler calls e).1.dispatched =
        (decode (runEngine decode encode handler calls e).1.committed).length) := by
  intro calls
  induction calls with
  | nil =>
    intro e hA hd hcl
    simp only [runEngine]
    exact ⟨by simp, hd, hcl, fun h => absurd rfl h⟩
  | cons c rest ih =>
    intro e hA hd hcl
    have hAc : c.2.errFree = true := hA c (by simp)
    have hArest : ∀ p ∈ rest, p.2.errFree = true := fun p hp => hA p (by simp [hp])
    obtain ⟨hsE, hsd, hsev⟩ :=
      process_total_step decode encode handler c.1 e c.2 hM hT hAc hd hcl
    obtain ⟨ih1, ih2, ih3, ih4⟩ := ih (process decode encode handler c.1 e c.2).eng
      hArest (le_of_eq hsd) (fun _ => hsd)
    simp only [runEngine]
    have htk : (decode (process decode encode handler c.1 e c.2).eng.committed).take
        (process decode encode handler c.1 e c.2).eng.dispatched =
        decode (process decode encode handler c.1 e c.2).eng.committed := by
      rw [hsd, List.take_length]
    rw [htk] at ih1
    refine ⟨?_, ih2, ih3, ?_⟩
    · rw [← List.append_assoc, hsev]
      exact ih1
    · intro _
      cases hrest : rest with
      | nil =>
        simp only [runEngine]
        exact hsd
      | cons r rs =>
        rw [hrest] at ih4
        exact ih4 (by simp)

/-- The events a nonempty error-free run dispatches, concatenated, are
exactly the events the core generates for the bytes the run committed. -/
theorem runEngine_events_complete (decode : List Byte → List Event)
    (encode : List Byte → List Byte) (handler : Event → Option String)
    (calls : List (Nat × Adapter)) (hM : Mono decode)
    (hT : ∀ ev, handler ev = none)
    (hA : ∀ p ∈ calls, p.2.errFree = true) (hne : calls ≠ []) :
    (runEngine decode encode handler calls mkEngine).2.2 =
      decode (runEngine decode encode handler calls mkEngine).1.committed := by
  obtain ⟨h1, _, _, h4⟩ := run_total decode encode handler hM hT calls mkEngine hA
    (by simp [mkEngine]) (by simp [mkEngine])
  rw [h4 hne, List.take_length] at h1
  simpa [mkEngine] using h1

/-- C1: across any nonempty sequence of `process()` calls from a fresh
engine — with a streaming protocol core, a handler that does not throw and
error-free adapter scripts — the concatenation of the per-call dispatched
event batches equals exactly the sequence of events the protocol core
generated for the committed byte stream: every generated event is
dispatched exactly once, none is lost, none is duplicated, and the order of
dispatch is the order of generation. -/
theorem run_dispatches_exactly_once (decode : List Byte → List Event)
    (encode : List Byte → List Byte) (handler : Event → Option String)
    (calls : List (Nat × Adapter)) (hM : Mono decode)
    (hT : ∀ ev, handler ev = none)
    (hA : ∀ p ∈ calls, p.2.errFree = true) (hne : calls ≠ []) :
    (runEngine decode encode handler calls mkEngine).2.2 =
      decode (runEngine decode encode handler calls mkEngine).1.committed :=
  runEngine_events_complete decode encode handler calls hM hT hA hne

/-- Witness for C1: two process calls, each committing some bytes, with an
identity core: the run dispatches [1, 2, 3], the events for the full
committed stream. -/
theorem run_dispatches_exactly_once_witness :
    ((runEngine (fun s => s) (fun s => s) (fun _ => none)
        [(3, ⟨[ReadRes.data [1, 2]], [WriteRes.accept 1]⟩),
          (1, ⟨[ReadRes.data [3]], []⟩)] mkEngine).2.2 =
      (fun s : List Byte => s)
        ((runEngine (fun s => s) (fun s => s) (fun _ => none)
          [(3, ⟨[ReadRes.data [1, 2]], [WriteRes.accept 1]⟩),
            (1, ⟨[ReadRes.data [3]], []⟩)] mkEngine).1.committed)) ∧
    (runEngine (fun s => s) (fun s => s) (fun _ => none)
        [(3, ⟨[ReadRes.data [1, 2]], [WriteRes.accept 1]⟩),
          (1, ⟨[ReadRes.data [3]], []⟩)] mkEngine).2.2 = [1, 2, 3] :=
  ⟨run_dispatches_exactly_once (fun s => s) (fun s => s) (fun _ => none)
      [(3, ⟨[ReadRes.data [1, 2]], [WriteRes.accept 1]⟩), (1, ⟨[ReadRes.data [3]], []⟩)]
      (fun s t => ⟨t, rfl⟩) (fun _ => rfl) (by decide) (by decide),
    by decide⟩

/-- The run that delivers a byte stream in the given chunks: one READ-only
`process()` call per chunk, each with an adapter whose read returns that
chunk. -/
def chunkCalls (chunks : List (List Byte)) : List (Nat × Adapter) :=
  chunks.map (fun b => ((1 : Nat), (⟨[ReadRes.data b], []⟩ : Adapter)))

/-- One READ-only `process()` call on an open engine whose adapter delivers
one data chunk commits exactly that chunk and leaves the engine open. -/
theorem process_chunk_step (decode : List Byte → List Event)
    (encode : List Byte → List Byte) (handler : Event → Option String)
    (hT : ∀ ev, handler ev = none) (e : Engine) (b : List Byte)
    (hc : e.closed = false) (he : e.eosSeen = false) :
    (process decode encode handler 1 e ⟨[ReadRes.data b], []⟩).eng.committed =
      e.committed ++ b ∧
    (process decode encode handler 1 e ⟨[ReadRes.data b], []⟩).eng.closed = false ∧
    (process decode encode handler 1 e ⟨[ReadRes.data b], []⟩).eng.eosSeen = false := by
  have hb0 : (1 : Nat).testBit 0 = true := rfl
  have hb1 : (1 : Nat).testBit 1 = false := rfl
  have hrt := runHandler_total handler hT
  simp [process, readStage, dispatchStage, encodeStage, writeStage, closeStage,
    quiescent, hc, he, hb0, hb1, hrt]

/-- Delivering chunks one `process()` call at a time commits their
concatenation, in order, and keeps the engine open. -/
theorem run_chunks_state (decode : List Byte → List Event)
    (encode : List Byte → List Byte) (handler : Event → Option String)
    (hT : ∀ ev, handler ev = none) :
    ∀ (chunks : List (List Byte)) (e : Engine),
      e.closed = false → e.eosSeen = false →
      (runEngine decode encode handler (chunkCalls chunks) e).1.committed =
        e.committed ++ chunks.flatten := by
  intro chunks
  induction chunks with
  | nil =>
    intro e hc he
    simp [chunkCalls, runEngine]
  | cons b rest ih =>
    intro e hc he
    obtain ⟨h1, h2, h3⟩ := process_chunk_step decode encode handler hT e b hc he
    simp only [chunkCalls, List.map_cons, runEngine]
    have := ih (process decode encode handler 1 e ⟨[ReadRes.data b], []⟩).eng h2 h3
    simp only [chunkCalls] at this
    rw [this, h1]
    simp

/-- Every chunk-delivery adapter script is error-free. -/
theorem chunkCalls_errFree (chunks : List (List Byte)) :
    ∀ p ∈ chunkCalls chunks, p.2.errFree = true := by
  intro p hp
  simp only [chunkCalls, List.mem_map] at hp
  obtain ⟨b, _, hb⟩ := hp
  rw [← hb]
  simp [Adapter.errFree, ReadRes.isErr]

/-- C2: chunking invariance.  For a streaming protocol core and a handler
that does not throw, delivering a byte stream in any nonempty sequence of
chunks across successive READ-only `process()` calls dispatches exactly the
same event sequence, in order and content, as committing the whole
concatenated stream in a single call. -/
theorem run_chunking_invariant (decode : List Byte → List Event)
    (encode : List Byte → List Byte) (handler : Event → Option String)
    (chunks : List (List Byte)) (hM : Mono decode)
    (hT : ∀ ev, handler ev = none) (hne : chunks ≠ []) :
    (runEngine decode encode handler (chunkCalls chunks) mkEngine).2.2 =
      (runEngine decode encode handler (chunkCalls [chunks.flatten]) mkEngine).2.2 := by
  have hne1 : chunkCalls chunks ≠ [] := by
    simp [chunkCalls]
    exact hne
  have hne2 : chunkCalls [chunks.flatten] ≠ [] := by simp [chunkCalls]
  have hL := runEngine_events_complete decode encode handler (chunkCalls chunks)
    hM hT (chunkCalls_errFree chunks) hne1
  have hR := runEngine_events_complete decode encode handler (chunkCalls [chunks.flatten])
    hM hT (chunkCalls_errFree [chunks.flatten]) hne2
  have hcL := run_chunks_state decode encode handler hT chunks mkEngine rfl rfl
  have hcR := run_chunks_state decode encode handler hT [chunks.flatten] mkEngine rfl rfl
  rw [hL, hR, hcL, hcR]
  simp [mkEngine]

/-- Witness for C2: the stream [1, 2, 3] delivered as [1], [2, 3] and as one
chunk dispatches the same events. -/
theorem run_chunking_invariant_witness :
    ((runEngine (fun s => s) (fun s => s) (fun _ => none)
        (chunkCalls [[1], [2, 3]]) mkEngine).2.2 =
      (runEngine (fun s => s) (fun s => s) (fun _ => none)
        (chunkCalls [[[1], [2, 3]].flatten]) mkEngine).2.2) ∧
    (runEngine (fun s => s) (fun s => s) (fun _ => none)
        (chunkCalls [[1], [2, 3]]) mkEngine).2.2 = [1, 2, 3] :=
  ⟨run_chunking_invariant (fun s => s) (fun s => s) (fun _ => none) [[1], [2, 3]]
      (fun s t => ⟨t, rfl⟩) (fun _ => rfl) (by decide),
    by decide⟩
